import Mathlib

/-!
# Verification of the achar trace-to-G-code pipeline

Shallow embedding, in Lean 4, of the parts of the `achar` repository that the
frozen claims are about:

* the trace `Parser` (`src/unnamed/part_001`),
* the change-tracking `Emitter` and the Emitter-based `Machine`
  (`src/src/lib/emitter.ts`, second `Machine` of `src/src/lib/machine.ts`),
* the two `Builder` variants: the single-file builder of `src/src/lib/builder.ts`
  and the multi-file builder with subprograms of `src/unnamed/part_003`,
* the event-dispatch engine `Program` (`src/src/lib/program.ts`).

JavaScript datatypes are embedded as follows: strings become `List Char`
(converted from Lean `String`s at the boundaries), JS numbers become the
inductive `JSNum` (`nan` or an exact rational; double rounding and overflow to
`Infinity` are not modelled — no claim depends on them), JS objects with
dynamic keys become insertion-ordered association lists, thrown exceptions
become `Option JsErr` results paired with the state at the point of the throw
(a JS `throw` leaves already-performed mutations in place).
-/

namespace Achar

/-! ## Characters and strings -/

/-- The apostrophe / single-quote character, used by the trace format for
quoted string values. -/
def quoteChar : Char := Char.ofNat 39

/-- JS `\s` (whitespace) restricted to the ASCII whitespace characters that can
occur in trace input. -/
def isWs (c : Char) : Bool :=
  c = ' ' || c = '\t' || c = '\n' || c = '\r' || c = Char.ofNat 11 || c = Char.ofNat 12

/-- JS `\w`: ASCII letters, digits and underscore. -/
def isWordChar (c : Char) : Bool :=
  c.isAlphanum || c = '_'

/-- `String.prototype.trim()` on a character list. -/
def jsTrim (l : List Char) : List Char :=
  ((l.dropWhile isWs).reverse.dropWhile isWs).reverse

/-- `input.split(sep)` for a single-character separator; always returns one
more part than there are separators (so `""` splits into `[[]]`, as in JS). -/
def splitOnChar (sep : Char) : List Char → List (List Char)
  | [] => [[]]
  | c :: rest =>
    let parts := splitOnChar sep rest
    if c = sep then [] :: parts
    else
      match parts with
      | [] => [[c]]
      | p :: ps => (c :: p) :: ps

/-- The maximal run of trailing ASCII letters removed — the JS replacement of
the regex `/[A-Za-z]+$/` by the empty string. -/
def stripLetterSuffix (l : List Char) : List Char :=
  (l.reverse.dropWhile Char.isAlpha).reverse

/-! ## JS numbers -/

/-- A JS number as stored by the parser: `NaN`, a signed infinity, or an exact
decimal value `mantissa · 10 ^ exp10`.  Values are kept canonical (mantissa not
divisible by ten, zero is `val 0 0`), so structural equality coincides with
numeric equality.  (JS doubles are modelled as exact decimals; double rounding
and overflow are not modelled — no claim depends on them.) -/
inductive JSNum where
  | nan : JSNum
  | inf : Bool → JSNum
  | val : Int → Int → JSNum
deriving DecidableEq, Repr

/-- Strip factors of ten from the mantissa into the exponent (fuel-based so
the kernel can evaluate it; `|m|` is always enough fuel). -/
def stripTens : Nat → Int → Int → Int × Int
  | 0, m, e => (m, e)
  | fuel + 1, m, e =>
    if m % 10 = 0 ∧ m ≠ 0 then stripTens fuel (m / 10) (e + 1) else (m, e)

/-- The canonical `JSNum` for the decimal `m · 10 ^ e`. -/
def mkDec (m : Int) (e : Int) : JSNum :=
  if m = 0 then .val 0 0
  else
    let p := stripTens m.natAbs m e
    .val p.1 p.2

/-- The canonical `JSNum` of a natural number (JS stores `_index` as a
number). -/
def natToJSNum (j : Nat) : JSNum := mkDec j 0

/-- Digits to natural number, most significant first. -/
def digitsToNat (l : List Char) : Nat :=
  l.foldl (fun acc c => acc * 10 + (c.toNat - 48)) 0

/-- Hex/octal/binary digit value for radix parsing. -/
def digitVal (c : Char) : Nat :=
  if c.isDigit then c.toNat - 48
  else if 'a' ≤ c ∧ c ≤ 'f' then c.toNat - 87
  else if 'A' ≤ c ∧ c ≤ 'F' then c.toNat - 55
  else 0

def isHexDigit (c : Char) : Bool :=
  c.isDigit || ('a' ≤ c && c ≤ 'f') || ('A' ≤ c && c ≤ 'F')

def radixToNat (radix : Nat) (l : List Char) : Nat :=
  l.foldl (fun acc c => acc * radix + digitVal c) 0

/-- Parse a complete JS `StrDecimalLiteral` (optional sign, digits with
optional fraction, optional exponent); `none` when the input is not entirely
such a literal, otherwise the value as a signed mantissa and a power-of-ten
exponent. -/
def parseDecimalLiteral (t : List Char) : Option (Int × Int) := do
  let (neg, t1) :=
    match t with
    | '-' :: r => (true, r)
    | '+' :: r => (false, r)
    | _ => (false, t)
  let intDigits := t1.takeWhile Char.isDigit
  let r1 := t1.drop intDigits.length
  let (fracDigits, r2) :=
    match r1 with
    | '.' :: rr => (rr.takeWhile Char.isDigit, rr.drop (rr.takeWhile Char.isDigit).length)
    | _ => ([], r1)
  if intDigits.isEmpty ∧ fracDigits.isEmpty then none else
  let (expOk, expNeg, expDigits, r3) :=
    match r2 with
    | c :: rr =>
      if c = 'e' ∨ c = 'E' then
        let (en, rr1) :=
          match rr with
          | '-' :: r => (true, r)
          | '+' :: r => (false, r)
          | _ => (false, rr)
        let eds := rr1.takeWhile Char.isDigit
        (!eds.isEmpty, en, eds, rr1.drop eds.length)
      else (true, false, ([] : List Char), r2)
    | [] => (true, false, ([] : List Char), r2)
  if !expOk then none else
  if ¬r3.isEmpty then none else
  let mantissa : Int := digitsToNat (intDigits ++ fracDigits)
  let e : Int := digitsToNat expDigits
  let exp10 : Int := (if expNeg then -e else e) - fracDigits.length
  pure (if neg then -mantissa else mantissa, exp10)

/-- JS `Number(string)`: trims whitespace; empty string is `0`; recognizes
signed `Infinity`, unsigned hex/octal/binary literals, and full decimal
literals; anything else is `NaN`. -/
def jsNumber (s : List Char) : JSNum :=
  let t := jsTrim s
  if t.isEmpty then .val 0 0
  else if t = "Infinity".toList ∨ t = '+' :: "Infinity".toList then .inf false
  else if t = '-' :: "Infinity".toList then .inf true
  else
    match t with
    | '0' :: x :: rest =>
      if x = 'x' ∨ x = 'X' then
        if ¬rest.isEmpty ∧ rest.all isHexDigit then mkDec (radixToNat 16 rest) 0 else .nan
      else if x = 'o' ∨ x = 'O' then
        if ¬rest.isEmpty ∧ rest.all (fun c => '0' ≤ c && c ≤ '7') then mkDec (radixToNat 8 rest) 0 else .nan
      else if x = 'b' ∨ x = 'B' then
        if ¬rest.isEmpty ∧ rest.all (fun c => c = '0' || c = '1') then mkDec (radixToNat 2 rest) 0 else .nan
      else
        match parseDecimalLiteral t with
        | some (m, e) => mkDec m e
        | none => .nan
    | _ =>
      match parseDecimalLiteral t with
      | some (m, e) => mkDec m e
      | none => .nan

/-- `!isNaN(parseFloat(s))`: JS `parseFloat` skips leading whitespace and an
optional sign, and succeeds iff what follows starts with a digit, a dot
followed by a digit, or the literal `Infinity`. -/
def parseFloatSucceeds (s : List Char) : Bool :=
  let t := s.dropWhile isWs
  let u :=
    match t with
    | c :: r => if c = '+' ∨ c = '-' then r else t
    | [] => []
  match u with
  | [] => false
  | c :: r =>
    c.isDigit || (c = '.' && (match r with | d :: _ => d.isDigit | [] => false))
      || "Infinity".toList.isPrefixOf u

/-! ## JS values and objects -/

/-- A parser-produced scalar: string, number, or boolean. -/
inductive JSValue where
  | str : List Char → JSValue
  | num : JSNum → JSValue
  | bool : Bool → JSValue
deriving DecidableEq, Repr

/-- A JS object with dynamic keys: an insertion-ordered association list. -/
abbrev Obj : Type := List (String × JSValue)

/-- JS property assignment `o[k] = v`: updates the value in place when the key
exists, otherwise appends the new key at the end. -/
def objSet (o : Obj) (k : String) (v : JSValue) : Obj :=
  if o.any (fun p => p.1 = k) then
    o.map (fun p => if p.1 = k then (k, v) else p)
  else o ++ [(k, v)]

/-- Property lookup. -/
def objGet (o : Obj) (k : String) : Option JSValue :=
  (o.find? (fun p => p.1 = k)).map (·.2)

/-! ## The parser (`Parser.parse`, `src/unnamed/part_001`)

The event-marker regex `/^\s*\((\d+)\)@(\w+)/` and the key/value regex
`/([\w_]+)\s?:\s?<q>([^<q>]*)<q>|([\w_]+)\s?:\s?([^\s]+)/g` — where `<q>`
stands for the single-quote character `quoteChar` — are compiled by hand into
matching functions with JS backtracking semantics. -/

/-- Match `/^\s*\((\d+)\)@(\w+)/` against a line; returns the bracketed digit
group and the identifier group.  (The digit group is captured but — exactly as
in the source — never used by `parse`.) -/
def sectionMatch (l : List Char) : Option (List Char × List Char) :=
  match l.dropWhile isWs with
  | '(' :: r1 =>
    let ds := r1.takeWhile Char.isDigit
    if ds.isEmpty then none else
    match r1.drop ds.length with
    | ')' :: '@' :: r2 =>
      let name := r2.takeWhile isWordChar
      if name.isEmpty then none else some (ds, name)
    | _ => none
  | _ => none

/-- `\s?:` — the colon with an optional single preceding whitespace; returns
the consumed characters and the remainder. -/
def matchColonPart (r : List Char) : Option (List Char × List Char) :=
  match r with
  | ':' :: rest => some ([':'], rest)
  | c :: ':' :: rest => if isWs c then some ([c, ':'], rest) else none
  | _ => none

/-- `\s?<q>([^<q>]*)<q>` (with `<q>` the single-quote character) — optional
single whitespace, then a single-quoted string (requires a closing quote);
returns the consumed characters and the remainder. -/
def matchQuotedValue (r : List Char) : Option (List Char × List Char) :=
  let quoted : List Char → Option (List Char × List Char) := fun s =>
    match s with
    | q :: rest =>
      if q = quoteChar then
        let content := rest.takeWhile (fun c => c ≠ quoteChar)
        match rest.drop content.length with
        | q2 :: rest2 =>
          if q2 = quoteChar then some (quoteChar :: content ++ [quoteChar], rest2) else none
        | [] => none
      else none
    | [] => none
  match r with
  | c :: rest =>
    if isWs c then
      -- greedy `\s?`: first try with the whitespace consumed, then without
      match quoted rest with
      | some (m, rest2) => some (c :: m, rest2)
      | none => quoted r
    else quoted r
  | [] => none

/-- `\s?([^\s]+)` — optional single whitespace, then a maximal nonempty run of
non-whitespace characters. -/
def matchBareValue (r : List Char) : Option (List Char × List Char) :=
  match r with
  | c :: rest =>
    if isWs c then
      match rest with
      | d :: _ =>
        if isWs d then none
        else
          let v := rest.takeWhile (fun x => ¬isWs x)
          some (c :: v, rest.drop v.length)
      | [] => none
    else
      let v := r.takeWhile (fun x => ¬isWs x)
      some (v, r.drop v.length)
  | [] => none

/-- One attempt of the key/value regex anchored at the head of `l`: a nonempty
run of word characters, the colon part, then the quoted alternative or (on
failure) the bare alternative.  Returns the full matched text and the
remainder of the line. -/
def tryMatchAt (l : List Char) : Option (List Char × List Char) :=
  let key := l.takeWhile isWordChar
  if key.isEmpty then none else
  match matchColonPart (l.drop key.length) with
  | none => none
  | some (cp, r) =>
    match matchQuotedValue r with
    | some (vq, rest) => some (key ++ cp ++ vq, rest)
    | none =>
      match matchBareValue r with
      | some (vb, rest) => some (key ++ cp ++ vb, rest)
      | none => none

/-- `line.match(regex)` with the `g` flag: scan left to right, emitting each
leftmost match and resuming after it.  (Fuel is the line length; every match
consumes at least one character, so the fuel never runs out.) -/
def findMatchesAux : Nat → List Char → List (List Char)
  | 0, _ => []
  | _ + 1, [] => []
  | fuel + 1, l@(_ :: rest) =>
    match tryMatchAt l with
    | some (m, r) => m :: findMatchesAux fuel r
    | none => findMatchesAux fuel rest

def findMatches (l : List Char) : List (List Char) :=
  findMatchesAux l.length l

/-- The canonical string spellings of `DirectionEnum`. -/
def directionEnumStrings : List (List Char) :=
  ["cw", "cwT", "cwF", "ccw", "ccwT", "ccwF", "forward", "backward"].map String.toList

/-- The canonical string spellings of `StateEnum`. -/
def stateEnumStrings : List (List Char) :=
  ["on", "off"].map String.toList

/-- The canonical string spellings of `PlanEnum`. -/
def planEnumStrings : List (List Char) :=
  ["xy", "xz", "yz"].map String.toList

/-- The value-typing cascade of `Parser.parse`: quoted string → boolean
literal → number (letter suffix stripped, `parseFloat` test, `Number`
conversion) → the three enum vocabularies (stored verbatim) → raw string. -/
def classifyValue (v : List Char) : JSValue :=
  if v.head? = some quoteChar ∧ v.getLast? = some quoteChar then
    .str ((v.drop 1).dropLast)
  else if v = "true".toList then .bool true
  else if v = "false".toList then .bool false
  else if parseFloatSucceeds (stripLetterSuffix v) then
    .num (jsNumber (stripLetterSuffix v))
  else if v ∈ directionEnumStrings then .str v
  else if v ∈ stateEnumStrings then .str v
  else if v ∈ planEnumStrings then .str v
  else .str v

/-- The key of one matched `key: value` pair: the text before the first
colon, trimmed (`pair.substring(0, pair.indexOf(':')).trim()`). -/
def pairKey (pair : List Char) : String :=
  ⟨jsTrim (pair.take (pair.findIdx (fun c => c = ':')))⟩

/-- The typed value of one matched pair: the text after the first colon,
trimmed, pushed through the typing cascade. -/
def pairValue (pair : List Char) : JSValue :=
  classifyValue (jsTrim (pair.drop (pair.findIdx (fun c => c = ':') + 1)))

/-- Split one matched pair at its first colon and assign the typed value. -/
def applyPair (o : Obj) (pair : List Char) : Obj :=
  objSet o (pairKey pair) (pairValue pair)

def applyPairs (o : Obj) (pairs : List (List Char)) : Obj :=
  pairs.foldl applyPair o

/-- `_toPascalCase`: split on underscores, capitalize the first character of
each piece and lowercase the rest, concatenate. -/
def toPascalCase (l : List Char) : List Char :=
  ((splitOnChar '_' l).map (fun w =>
    match w with
    | [] => []
    | c :: r => c.toUpper :: r.map Char.toLower)).flatten

/-- The mutable loop state of `Parser.parse`: finished records, the open
record, and the index counter. -/
structure ParseState where
  out : List Obj
  cur : Option Obj
  counter : Nat
deriving Repr

/-- The body of the `lines.forEach` loop of `Parser.parse`. -/
def processLine (st : ParseState) (line : List Char) : ParseState :=
  let st : ParseState :=
    match sectionMatch line with
    | some (_, name) =>
      { out := st.out ++ st.cur.toList
        cur := some [("_eventName", .str (toPascalCase name)),
                     ("_index", .num (natToJSNum st.counter))]
        counter := st.counter + 1 }
    | none => st
  match st.cur with
  | none => st
  | some o => { st with cur := some (applyPairs o (findMatches line)) }

/-- `Parser.parse`: split the input on newlines, fold the line processor, and
append the final open record. -/
def parse (input : List Char) : List Obj :=
  let final := (splitOnChar '\n' input).foldl processLine ⟨[], none, 0⟩
  final.out ++ final.cur.toList

/-- Number of event-marker lines in an input. -/
def markerCount (input : List Char) : Nat :=
  ((splitOnChar '\n' input).filter (fun l => (sectionMatch l).isSome)).length

/-! ## The Emitter (`src/src/lib/emitter.ts`)

State cell for one machine parameter.  The `_log` array (and the
`event`/`eventListenerIndex` arguments, which exist only to feed it) is
diagnostic only and observed by no claim, so it is not modelled.  The
`_transform` closure installed by the constructor is modelled as a render-site
argument (`toStr`), each call site passing exactly the function the source
constructor installed (the identity JS stringification for every emitter
except the tool emitter). -/

structure Emitter (α : Type) where
  /-- `_prefix` (renamed: `prefix` is a reserved word in Lean). -/
  pfx : String
  /-- `_value`, initially `null`. -/
  value : Option α := none
deriving DecidableEq, Repr

/-- `Emitter.render(newValue?, forcePrint?)`. -/
def Emitter.render [DecidableEq α] (e : Emitter α) (toStr : α → String)
    (newValue : Option α) (forcePrint : Bool) : String × Emitter α :=
  match newValue with
  | none => ("", e)
  | some v =>
    if ¬forcePrint ∧ e.value = some v then ("", e)
    else (e.pfx ++ toStr v, { e with value := some v })

/-! ## The Emitter-based Machine (`src/src/lib/machine.ts`, second variant)

JS numbers held by the emitters of the machine are modelled as integers (all values
the claims exercise are integers, and the JS stringification of an integral
number is its decimal representation). -/

/-- JS stringification of an integral number. -/
def intShow (n : Int) : String := toString n

/-- The `_currentTool` transform: the tool name wrapped in an `=` and double
quotes. -/
def toolTransform (v : String) : String := "=\"" ++ v ++ "\""

/-- `replace(/\s+/g, ' ')`: every maximal whitespace run becomes one space. -/
def collapseWs (l : List Char) : List Char :=
  l.foldr (fun c acc =>
    if isWs c then
      match acc with
      | ' ' :: _ => acc
      | _ => ' ' :: acc
    else c :: acc) []

def collapseWsS (s : String) : String := ⟨collapseWs s.toList⟩

def jsTrimS (s : String) : String := ⟨jsTrim s.toList⟩

/-- `DirectionEnum` (`src/src/common/enums.ts`). -/
inductive DirectionEnum where
  | cw | cwT | cwF | ccw | ccwT | ccwF | forward | backward
deriving DecidableEq, Repr

/-- The trace argument of `Machine.setPosition`: optional target coordinates. -/
structure PosParams where
  x : Option Int := none
  y : Option Int := none
  z : Option Int := none
  a : Option Int := none
  b : Option Int := none
  c : Option Int := none
deriving DecidableEq, Repr

/-- The state aggregate of the Emitter-based `Machine`. -/
structure Machine where
  x : Emitter Int := ⟨"X", none⟩
  y : Emitter Int := ⟨"Y", none⟩
  z : Emitter Int := ⟨"Z", none⟩
  a : Emitter Int := ⟨"A", none⟩
  b : Emitter Int := ⟨"B", none⟩
  c : Emitter Int := ⟨"C", none⟩
  machinePlane : Emitter Int := ⟨"G", none⟩
  motionMode : Emitter Int := ⟨"G", none⟩
  unitSystem : Emitter Int := ⟨"G", none⟩
  positioningMode : Emitter Int := ⟨"G", none⟩
  feedRateMode : Emitter Int := ⟨"G", none⟩
  homeNumber : Emitter Int := ⟨"G", none⟩
  feedRate : Emitter Int := ⟨"F", none⟩
  spindleSpeed : Emitter Int := ⟨"S", none⟩
  spindleDirection : Emitter Int := ⟨"M", none⟩
  currentTool : Emitter String := ⟨"T", none⟩
deriving DecidableEq, Repr

def Machine.init : Machine := {}

/-- `Machine.setPosition`: render the six axes in order, join with single
spaces, collapse whitespace runs, trim. -/
def Machine.setPosition (m : Machine) (value : PosParams) (forcePrint : Bool) :
    String × Machine :=
  let (wx, ex) := m.x.render intShow value.x forcePrint
  let (wy, ey) := m.y.render intShow value.y forcePrint
  let (wz, ez) := m.z.render intShow value.z forcePrint
  let (wa, ea) := m.a.render intShow value.a forcePrint
  let (wb, eb) := m.b.render intShow value.b forcePrint
  let (wc, ec) := m.c.render intShow value.c forcePrint
  let output := wx ++ " " ++ wy ++ " " ++ wz ++ " " ++ wa ++ " " ++ wb ++ " " ++ wc ++ " "
  (jsTrimS (collapseWsS output), { m with x := ex, y := ey, z := ez, a := ea, b := eb, c := ec })

/-- `Machine.setSpindleDirection`: many-to-one normalization of the direction
enumerant into the internal code 3/4 (the `switch` has no branch for
`FORWARD`/`BACKWARD`, so `direction` keeps its initializer `3`), then render
through the `M` emitter. -/
def Machine.setSpindleDirection (m : Machine) (value : DirectionEnum) (forcePrint : Bool) :
    String × Machine :=
  let direction : Int :=
    match value with
    | .cw | .cwF | .cwT => 3
    | .ccw | .ccwF | .ccwT => 4
    | .forward | .backward => 3
  let (w, e) := m.spindleDirection.render intShow (some direction) forcePrint
  (jsTrimS w, { m with spindleDirection := e })

/-! ## The single-file Builder (`src/src/lib/builder.ts`) -/

/-- The state of the simple builder: formatted lines, pending words, and the
line-number counter (initially 10, step 10 — this variant has no options). -/
structure SBuilder where
  lines : List String := []
  currentLine : List String := []
  lineNumber : Int := 10
deriving DecidableEq, Repr

def SBuilder.init : SBuilder := {}

/-- `Builder.put(section)`: push the trimmed section when nonempty. -/
def SBuilder.put (bu : SBuilder) (sec : String) : SBuilder :=
  if sec ≠ "" ∧ (jsTrimS sec).length > 0 then
    { bu with currentLine := bu.currentLine ++ [jsTrimS sec] }
  else bu

/-- `Builder.flush()`: when the pending words are nonempty (and not all
empty), append `N<number> <words>` and advance the counter by 10. -/
def SBuilder.flush (bu : SBuilder) : SBuilder :=
  if bu.currentLine.length > 0 ∧ (String.join bu.currentLine).length > 0 then
    { lines := bu.lines ++ ["N" ++ toString bu.lineNumber ++ " " ++ jsTrimS (String.intercalate " " bu.currentLine)]
      currentLine := []
      lineNumber := bu.lineNumber + 10 }
  else bu

def SBuilder.gcode (bu : SBuilder) : String := String.intercalate "\n" bu.lines

/-! ## The multi-file Builder (`src/unnamed/part_003`) -/

/-- `BuilderOptions.numbering` / `FileOptions.numbering`. -/
structure NumberingOptions where
  enabled : Bool := true
  start : Int := 10
  increment : Int := 10
deriving DecidableEq, Repr

def defaultNumbering : NumberingOptions := {}

inductive FileType where
  | main | sub
deriving DecidableEq, Repr

/-- One `File` buffer: its options, flushed lines, pending words, and line
counter.  `_currentLineNumber` is initialized to the literal `10` by the field
initializer — the source never assigns `_options.numbering.start` to it. -/
structure File where
  name : String
  ftype : FileType
  numbering : NumberingOptions
  lines : List String := []
  currentLine : List String := []
  currentLineNumber : Int := 10
deriving DecidableEq, Repr

/-- The `File` constructor.  (The `options` argument defaults to the built-in
numbering defaults; the `Builder` never passes one.) -/
def File.new (name : String) (ftype : FileType) (opts : NumberingOptions := defaultNumbering) : File :=
  { name := name, ftype := ftype, numbering := opts }

/-- `File.flush()`: `parseInt(n.toString())` is the identity on the integral
line numbers and is modelled as plain stringification. -/
def File.flush (f : File) : File :=
  if f.currentLine.length > 0 ∧ (String.join f.currentLine).length > 0 then
    { f with
        lines := f.lines ++
          [(if f.numbering.enabled then "N" ++ toString f.currentLineNumber ++ " " else "") ++
            jsTrimS (String.intercalate " " f.currentLine)]
        currentLine := []
        currentLineNumber := f.currentLineNumber + f.numbering.increment }
  else f

/-- `File.put(section, skipNewLine?)`: push the trimmed nonempty section, then
flush unless `skipNewLine` is set. -/
def File.put (f : File) (sec : String) (skipNewLine : Bool) : File :=
  let f :=
    if sec ≠ "" ∧ (jsTrimS sec).length > 0 then
      { f with currentLine := f.currentLine ++ [jsTrimS sec] }
    else f
  if ¬skipNewLine then f.flush else f

def File.gcode (f : File) : String := String.intercalate "\n" f.lines

structure BuilderOptions where
  mainFileName : String := "Setup.MPF"
  numbering : NumberingOptions := {}
deriving DecidableEq, Repr

/-- A thrown JS `Error`. -/
structure JsErr where
  message : String
deriving DecidableEq, Repr

/-- The multi-file `Builder`: the merged options, the file array, and the
index of `currentFile` within `_files` (JS object identity: `mainFile` is
`_files[0]` and is never reassigned, so `currentFile === mainFile` is exactly
`currentIdx = 0`).  The owned `Machine` is carried alongside. -/
structure Builder where
  options : BuilderOptions
  files : List File
  currentIdx : Nat
  machine : Machine
deriving DecidableEq, Repr

/-- The `Builder` constructor.  Note (faithful to the source): the main `File`
is created *without* numbering options — `new File(this, mainFileName, Main)`
— so the configured `numbering` of the builder never reaches any file. -/
def Builder.new (opts : BuilderOptions) : Builder :=
  { options := opts
    files := [File.new opts.mainFileName .main]
    currentIdx := 0
    machine := Machine.init }

def Builder.currentFile (bu : Builder) : File :=
  bu.files.getD bu.currentIdx (File.new "" .main)

def Builder.setCurrent (bu : Builder) (f : File) : Builder :=
  { bu with files := bu.files.set bu.currentIdx f }

/-- `Builder.put(section, options?)`: delegate to the current file, then flush
it again unless `skipNewLine` (the inner `File.put` already flushed once; the
second flush is then a no-op on the emptied pending line). -/
def Builder.put (bu : Builder) (sec : String) (skipNewLine : Bool) : Builder :=
  let bu := bu.setCurrent (bu.currentFile.put sec skipNewLine)
  if ¬skipNewLine then bu.setCurrent bu.currentFile.flush else bu

def Builder.flush (bu : Builder) : Builder :=
  bu.setCurrent bu.currentFile.flush

/-- `Builder.NewSubProgram(name)`: legal only in the main file; creates
`<name>.SPF` (again without numbering options) and makes it current.  A thrown
error is modelled as `some err` paired with the unchanged state. -/
def Builder.NewSubProgram (bu : Builder) (name : String) : Option JsErr × Builder :=
  if bu.currentIdx ≠ 0 then
    (some ⟨"Cannot create new files in non-main (MPF) files"⟩, bu)
  else
    let files := bu.files ++ [File.new (name ++ ".SPF") .sub]
    (none, { bu with files := files, currentIdx := files.length - 1 })

/-- `Builder.EndSubProgram()`: legal only inside a subprogram; restores the
main file as current. -/
def Builder.EndSubProgram (bu : Builder) : Option JsErr × Builder :=
  if bu.currentIdx = 0 then
    (some ⟨"Cannot end the main (MPF) file"⟩, bu)
  else
    (none, { bu with currentIdx := 0 })

/-- `Builder.build()`: the name of every file with its newline-joined text, in
creation order. -/
def Builder.build (bu : Builder) : List (String × String) :=
  bu.files.map (fun f => (f.name, f.gcode))

/-! ## The event-dispatch engine (`src/src/lib/program.ts`)

The listener registry `Record<string, EventListener[]>` is an
insertion-ordered map from event name to listener array.  A listener is a
black box that receives the builder (and the event parameters) and either
returns normally or throws: it is modelled as a function from the parameter
and the state to the state at exit paired with the optional thrown error (a JS
throw keeps the mutations performed before it).  The metadata object built by
`process` is pure and does not influence dispatch control flow; its lookup
closures are embedded separately below. -/

/-- The listener registry, `_eventListeners`. -/
abbrev Registry (α : Type) := List (String × List α)

def emptyRegistry : Registry α := []

/-- `this._eventListeners[eventName]` (`undefined` when absent). -/
def regListeners (r : Registry α) (name : String) : Option (List α) :=
  (r.find? (fun p => p.1 = name)).map (·.2)

/-- `Program.on(eventName, listener)`: create the array when absent, then
push.  (`on` is a reserved word in Lean, hence `onEvent`.) -/
def onEvent (r : Registry α) (name : String) (l : α) : Registry α :=
  if r.any (fun p => p.1 = name) then
    r.map (fun p => if p.1 = name then (p.1, p.2 ++ [l]) else p)
  else r ++ [(name, [l])]

/-- The listener list that `Program.trigger(name, …)` iterates with
`forEach` (dispatch order = array order = registration order); an absent key
means no invocation at all. -/
def triggerList (r : Registry α) (name : String) : List α :=
  (regListeners r name).getD []

/-- A registered listener over state `σ` and parameter type `π`. -/
abbrev Listener (π σ : Type) := π → σ → Option JsErr × σ

/-- `listeners.forEach(listener => listener(builder, params, metadata))`:
sequential invocation, a throw aborts the iteration and propagates. -/
def runListeners (ls : List (Listener π σ)) (p : π) (st : σ) : Option JsErr × σ :=
  match ls with
  | [] => (none, st)
  | l :: rest =>
    match l p st with
    | (some e, st1) => (some e, st1)
    | (none, st1) => runListeners rest p st1

/-- `Program.trigger(eventName, params, metadata)`. -/
def trigger (r : Registry (Listener π σ)) (name : String) (p : π) (st : σ) :
    Option JsErr × σ :=
  runListeners (triggerList r name) p st

/-- `Program.process()`: iterate the loaded events in order, triggering each;
a listener throw unwinds the whole loop. -/
def processEvents (r : Registry (Listener π σ)) (evts : List (String × π)) (st : σ) :
    Option JsErr × σ :=
  match evts with
  | [] => (none, st)
  | (name, p) :: rest =>
    match trigger r name p st with
    | (some e, st1) => (some e, st1)
    | (none, st1) => processEvents r rest st1

/-! ### Temporal lookups (the metadata closures of `Program.process`)

The loaded event list is abstracted to its list of names (the data of an event
plays no part in the lookups); each lookup returns the *position* of the event
the source returns (`this._events[i]`), or `none` for `null`. -/

/-- The backward loop `for (let i = start; i >= 0; i--)` of `findLastEvent`,
inclusive at `start`. -/
def searchBackFrom (evts : List String) (name : String) : Nat → Option Nat
  | 0 => if evts[0]? = some name then some 0 else none
  | i + 1 =>
    if evts[i + 1]? = some name then some (i + 1)
    else searchBackFrom evts name i

/-- `findLastEvent(eventName)` at current index `index`: scan backward from
`index - 1`. -/
def findLastEvent (evts : List String) (index : Nat) (name : String) : Option Nat :=
  match index with
  | 0 => none
  | i + 1 => searchBackFrom evts name i

/-- The forward loop `for (let i = start; i < length; i++)` of
`findNearestEvent`, inclusive at `start`. -/
def searchFwdFrom (evts : List String) (name : String) (i : Nat) : Option Nat :=
  if h : i < evts.length then
    if evts[i] = name then some i else searchFwdFrom evts name (i + 1)
  else none
termination_by evts.length - i

/-- `findNearestEvent(eventName)` at current index `index`: scan forward from
`index + 1`. -/
def findNearestEvent (evts : List String) (index : Nat) (name : String) : Option Nat :=
  searchFwdFrom evts name (index + 1)

/-- The forward loop of `findNthNextEvent` with its countdown `n--; if (n === 0) return`.
`n` is an arbitrary JS integer, hence `Int`. -/
def searchFwdNth (evts : List String) (name : String) (i : Nat) (n : Int) : Option Nat :=
  if h : i < evts.length then
    if evts[i] = name then
      if n - 1 = 0 then some i else searchFwdNth evts name (i + 1) (n - 1)
    else searchFwdNth evts name (i + 1) n
  else none
termination_by evts.length - i

/-- `findNthNextEvent(eventName, n)` at current index `index`. -/
def findNthNextEvent (evts : List String) (index : Nat) (name : String) (n : Int) : Option Nat :=
  searchFwdNth evts name (index + 1) n

/-- The backward loop of `findNthPreviousEvent`, inclusive at its start. -/
def searchBackNth (evts : List String) (name : String) : Nat → Int → Option Nat
  | 0, n => if evts[0]? = some name ∧ n - 1 = 0 then some 0 else none
  | i + 1, n =>
    if evts[i + 1]? = some name then
      if n - 1 = 0 then some (i + 1) else searchBackNth evts name i (n - 1)
    else searchBackNth evts name i n

/-- `findNthPreviousEvent(eventName, n)` at current index `index`. -/
def findNthPreviousEvent (evts : List String) (index : Nat) (name : String) (n : Int) : Option Nat :=
  match index with
  | 0 => none
  | i + 1 => searchBackNth evts name i n

/-! ### Specification-side occurrence lists

The claims describe the lookups through the ordered occurrences of a name
around the current index; these lists are the independent formulation the
loops are proved against. -/

/-- The positions `≥ i` holding `name`, in increasing order. -/
def occFrom (evts : List String) (name : String) (i : Nat) : List Nat :=
  (List.range' i (evts.length - i)).filter (fun k => evts[k]? = some name)

/-- The positions `< index` holding `name`, nearest (largest) first. -/
def occBefore (evts : List String) (name : String) (index : Nat) : List Nat :=
  ((List.range index).filter (fun k => evts[k]? = some name)).reverse

/-- The positions `> index` holding `name`, in increasing order. -/
def occAfter (evts : List String) (name : String) (index : Nat) : List Nat :=
  occFrom evts name (index + 1)

/-! ### Specification-side value-token categories

The spec classifies value tokens as quoted strings, boolean literals, numeric
literals with an optional unit suffix, or known enumerated symbols; everything
else is to be kept as a raw string.  These predicates follow the words of the
spec
and are compared against the source-derived `classifyValue`. -/

/-- Spec category: a single-quoted string. -/
def specQuotedToken (v : List Char) : Bool :=
  v.head? = some quoteChar && v.getLast? = some quoteChar

/-- Spec category: a `true`/`false` literal. -/
def specBoolToken (v : List Char) : Bool :=
  v = "true".toList || v = "false".toList

/-- Spec category: a numeric literal optionally followed by a non-numeric
(letter) unit suffix — the suffix stripped, the rest an entire number. -/
def specNumericUnitToken (v : List Char) : Bool :=
  (parseDecimalLiteral (stripLetterSuffix v)).isSome

/-- Spec category: a known enumerated symbol (direction/state/plane
vocabularies). -/
def specEnumToken (v : List Char) : Bool :=
  v ∈ directionEnumStrings || v ∈ stateEnumStrings || v ∈ planEnumStrings

/-- The records held by the parse loop state: finished ones plus the open
one. -/
def recordsOf (st : ParseState) : List Obj :=
  st.out ++ st.cur.toList

/-- The `_index` invariant of the parse loop: the records so far carry
`_index` values `0, 1, …, counter − 1` in order. -/
def IndexInv (st : ParseState) : Prop :=
  (recordsOf st).map (fun o => objGet o "_index")
    = (List.range st.counter).map (fun j => some (.num (natToJSNum j)))

/-- A builder constructed with non-default numbering configuration
`enabled := false, start := 100, increment := 5` (concrete fixture). -/
def c8Builder : Builder :=
  Builder.new { mainFileName := "Main.MPF",
                numbering := { enabled := false, start := 100, increment := 5 } }

/-- Demonstration listener that emits one `G0` line and returns normally
(concrete fixture for the dispatch theorems). -/
def demoPutListener : Listener Unit Builder := fun _ bu => (none, bu.put "G0" false)

/-- Demonstration listener that throws (concrete fixture for the dispatch
theorems). -/
def demoThrowListener : Listener Unit Builder := fun _ bu => (some ⟨"boom"⟩, bu)

/-- A registry with the two demonstration listeners registered on `Evt`, in
that order. -/
def demoRegistry : Registry (Listener Unit Builder) :=
  onEvent (onEvent emptyRegistry "Evt" demoPutListener) "Evt" demoThrowListener

/-! # Theorems -/

/-- C1 (counterexample): on the multi-file builder of `part_003` the sequence
`put(G0); put(X10); flush()` on a fresh buffer does *not* leave exactly one
line — `put` flushes by default (its `skipNewLine` flag is unset), so the
buffer ends with the two lines `N10 G0` and `N20 X10`. -/
theorem C1_counterexample :
    let bu := ((Builder.new {}).put "G0" false).put "X10" false
    (bu.flush).currentFile.lines = ["N10 G0", "N20 X10"] ∧
    ((bu.flush).currentFile.lines).length ≠ 1 := by
  decide

/-- C1 (amended): in either builder variant, `flush()` on an empty pending
line changes nothing (in particular the line number stays put); on the simple
builder `put(G0); put(X10); flush()` from the initial state yields exactly
the line `N10 G0 X10` with the counter advanced by one increment (10 → 20);
on a fresh `part_003` file the same holds provided the two `put`s pass
`skipNewLine` (plain `put` flushes after every word). -/
theorem C1_empty_flush_and_put_sequence :
    (∀ bu : SBuilder, bu.currentLine = [] → bu.flush = bu) ∧
    (∀ f : File, f.currentLine = [] → f.flush = f) ∧
    ((SBuilder.init.put "G0").put "X10").flush
      = { lines := ["N10 G0 X10"], currentLine := [], lineNumber := 20 } ∧
    (((File.new "Setup.MPF" .main).put "G0" true).put "X10" true).flush
      = { name := "Setup.MPF", ftype := .main, numbering := defaultNumbering,
          lines := ["N10 G0 X10"], currentLine := [], currentLineNumber := 20 } := by
  refine ⟨fun bu h => ?_, fun f h => ?_, by decide, by decide⟩
  · simp [SBuilder.flush, h]
  · simp [File.flush, h]

/-- C1 (witness): the empty-flush clauses applied to the two initial
states. -/
theorem C1_witness :
    SBuilder.init.flush = SBuilder.init ∧
    (File.new "Setup.MPF" .main).flush = File.new "Setup.MPF" .main :=
  ⟨C1_empty_flush_and_put_sequence.1 SBuilder.init rfl,
   C1_empty_flush_and_put_sequence.2.1 (File.new "Setup.MPF" .main) rfl⟩

/-- C3 (counterexample): once `render` has returned the non-empty word `X10`
for the value 10, a *subsequent* render call with the same value 10 and
`forcePrint` false can return a non-empty word again — it suffices that a
different value was rendered in between, refuting the universally quantified
"every subsequent render call" of the claim. -/
theorem C3_counterexample :
    let e0 : Emitter Int := ⟨"X", none⟩
    let r1 := e0.render intShow (some 10) false
    let r2 := r1.2.render intShow (some 20) false
    let r3 := r2.2.render intShow (some 10) false
    r1.1 = "X10" ∧ r1.1 ≠ "" ∧ r3.1 = "X10" ∧ r3.1 ≠ "" := by
  decide

/-- C3 (amended): any `render` of a value `v` leaves `v` stored; *while `v` is
the stored value* a render with `v` and no `forcePrint` returns the empty
string and leaves the emitter unchanged (an intervening different value
re-enables emission); rendering `undefined` always returns empty and never
mutates; and `Machine.setPosition {x:10,y:20,z:30}` twice returns the full
word set then the empty string, or the full word set again under
`forcePrint`. -/
theorem C3_emitter_no_reemission :
    (∀ (α : Type) [DecidableEq α] (ts : α → String) (e : Emitter α) (v : α) (fp : Bool),
        ((e.render ts (some v) fp).2).value = some v) ∧
    (∀ (α : Type) [DecidableEq α] (ts : α → String) (e : Emitter α) (v : α),
        e.value = some v → e.render ts (some v) false = ("", e)) ∧
    (∀ (α : Type) [DecidableEq α] (ts : α → String) (e : Emitter α) (fp : Bool),
        e.render ts none fp = ("", e)) ∧
    ((Machine.init.setPosition { x := some 10, y := some 20, z := some 30 } false).1
        = "X10 Y20 Z30" ∧
      ((Machine.init.setPosition { x := some 10, y := some 20, z := some 30 } false).2.setPosition
          { x := some 10, y := some 20, z := some 30 } false)
        = ("", (Machine.init.setPosition { x := some 10, y := some 20, z := some 30 } false).2) ∧
      ((Machine.init.setPosition { x := some 10, y := some 20, z := some 30 } false).2.setPosition
          { x := some 10, y := some 20, z := some 30 } true).1
        = "X10 Y20 Z30") := by
  refine ⟨?_, ?_, ?_, by decide⟩
  · intro α _ ts e v fp
    simp only [Emitter.render]
    split
    · next h => exact h.2
    · rfl
  · intro α _ ts e v h
    simp [Emitter.render, h]
  · intro α _ ts e fp
    rfl

/-- C3 (witness): the suppression and `undefined` clauses applied to a
concrete integer emitter. -/
theorem C3_witness :
    Emitter.render (α := Int) ⟨"X", some 7⟩ intShow (some 7) false = ("", ⟨"X", some 7⟩) ∧
    ((Emitter.render (α := Int) ⟨"X", none⟩ intShow (some 7) false).2).value = some 7 ∧
    Emitter.render (α := Int) ⟨"X", some 7⟩ intShow none true = ("", ⟨"X", some 7⟩) :=
  ⟨C3_emitter_no_reemission.2.1 Int intShow ⟨"X", some 7⟩ 7 rfl,
   C3_emitter_no_reemission.1 Int intShow ⟨"X", none⟩ 7 false,
   C3_emitter_no_reemission.2.2.1 Int intShow ⟨"X", some 7⟩ true⟩

/-- C5: `NewSubProgram` outside the main file and `EndSubProgram` in the main
file both throw the illegal-file-context error and leave the whole builder
state (file set and current pointer) unchanged; in the legal cases
`NewSubProgram` appends the file `<name>.SPF` and makes it current, and
`EndSubProgram` restores the main file as current. -/
theorem C5_subprogram_file_context :
    ∀ (bu : Builder) (name : String),
      (bu.currentIdx ≠ 0 →
        bu.NewSubProgram name
          = (some ⟨"Cannot create new files in non-main (MPF) files"⟩, bu)) ∧
      (bu.currentIdx = 0 →
        bu.EndSubProgram = (some ⟨"Cannot end the main (MPF) file"⟩, bu)) ∧
      (bu.currentIdx = 0 →
        bu.NewSubProgram name
          = (none, { bu with files := bu.files ++ [File.new (name ++ ".SPF") .sub],
                             currentIdx := bu.files.length }) ∧
        ((bu.NewSubProgram name).2).currentFile = File.new (name ++ ".SPF") .sub) ∧
      (bu.currentIdx ≠ 0 → bu.EndSubProgram = (none, { bu with currentIdx := 0 })) := by
  intro bu name
  refine ⟨fun h => ?_, fun h => ?_, fun h => ⟨?_, ?_⟩, fun h => ?_⟩
  · simp [Builder.NewSubProgram, h]
  · simp [Builder.EndSubProgram, h]
  · simp [Builder.NewSubProgram, h]
  · simp [Builder.NewSubProgram, h, Builder.currentFile, List.getD_append_right]
  · simp [Builder.EndSubProgram, h]

/-- C5 (witness): the illegal and legal cases at concrete builders — a fresh
builder (main file current) and the builder right after opening `Sub1`. -/
theorem C5_witness :
    (((Builder.new {}).NewSubProgram "Sub1").2).NewSubProgram "Sub2"
      = (some ⟨"Cannot create new files in non-main (MPF) files"⟩,
          ((Builder.new {}).NewSubProgram "Sub1").2) ∧
    (Builder.new {}).EndSubProgram
      = (some ⟨"Cannot end the main (MPF) file"⟩, Builder.new {}) ∧
    (((Builder.new {}).NewSubProgram "Sub1").2).currentFile = File.new "Sub1.SPF" .sub :=
  ⟨(C5_subprogram_file_context (((Builder.new {}).NewSubProgram "Sub1").2) "Sub2").1
      (by decide),
   (C5_subprogram_file_context (Builder.new {}) "Sub2").2.1 rfl,
   ((C5_subprogram_file_context (Builder.new {}) "Sub1").2.2.1 rfl).2⟩

/-- C8: the numbering configuration of the builder is dead — with
`{enabled := false, start := 100, increment := 5}` the flushed lines still
come out as `N10 …`, `N20 …` (numbering enabled, starting at 10, step 10),
because the `Builder` constructor and `NewSubProgram` create every `File`
without forwarding the options, and `File` initializes its counter to the
literal 10 rather than `numbering.start`. -/
theorem C8_numbering_config_not_forwarded :
    (((((c8Builder.put "G0" true).flush).put "X1" true).flush).currentFile).lines
        = ["N10 G0", "N20 X1"] ∧
    (((((c8Builder.put "G0" true).flush).put "X1" true).flush).currentFile).numbering
        = { enabled := true, start := 10, increment := 10 } ∧
    ((c8Builder.NewSubProgram "Sub").2.currentFile).numbering
        = { enabled := true, start := 10, increment := 10 } := by
  decide

/-- C10: the spindle-direction normalization maps the three `cw*` enumerants
to internal code 3 (word `M3`) and the three `ccw*` enumerants to code 4
(word `M4`); `forward` and `backward` fall through the `switch` and also end
at code 3, so `backward` silently renders `M3`. -/
theorem C10_spindle_direction_normalization :
    ((Machine.init.setSpindleDirection .cw false).1 = "M3" ∧
     (Machine.init.setSpindleDirection .cwT false).1 = "M3" ∧
     (Machine.init.setSpindleDirection .cwF false).1 = "M3") ∧
    ((Machine.init.setSpindleDirection .ccw false).1 = "M4" ∧
     (Machine.init.setSpindleDirection .ccwT false).1 = "M4" ∧
     (Machine.init.setSpindleDirection .ccwF false).1 = "M4") ∧
    ((Machine.init.setSpindleDirection .forward false).1 = "M3" ∧
     (Machine.init.setSpindleDirection .backward false).1 = "M3") ∧
    ((Machine.init.setSpindleDirection .backward false).2.spindleDirection.value = some 3) := by
  decide

/-- Registering on `n` appends to the listener list of `n` and leaves the list
of every other name untouched. -/
theorem triggerList_onEvent (r : Registry α) (n name : String) (l : α) :
    triggerList (onEvent r n l) name
      = if n = name then triggerList r name ++ [l] else triggerList r name := by
  unfold onEvent triggerList regListeners
  by_cases hany : r.any (fun p => p.1 = n)
  · simp only [hany, if_true]
    rw [List.find?_map]
    have hpred :
        ((fun p : String × List α => decide (p.1 = name)) ∘
            (fun p => if p.1 = n then (p.1, p.2 ++ [l]) else p))
          = fun p : String × List α => decide (p.1 = name) := by
      funext p
      by_cases h : p.1 = n <;> simp [h]
    rw [hpred]
    cases hf : r.find? (fun p => decide (p.1 = name)) with
    | none =>
      rcases List.any_eq_true.mp hany with ⟨q, hq, hqn⟩
      by_cases hnn : n = name
      · exfalso
        have hsome : (r.find? (fun p => decide (p.1 = name))).isSome := by
          rw [List.find?_isSome]
          refine ⟨q, hq, ?_⟩
          subst hnn
          exact hqn
        rw [hf] at hsome
        simp at hsome
      · simp [hnn]
    | some q =>
      have hq : q.1 = name := by simpa using List.find?_some hf
      by_cases hnn : n = name
      · simp [hnn, hq]
      · have : ¬q.1 = n := by rw [hq]; exact fun h => hnn h.symm
        simp [hnn, this]
  · simp only [hany, Bool.false_eq_true, if_false]
    rw [List.find?_append]
    cases hf : r.find? (fun p => decide (p.1 = name)) with
    | some q =>
      have hq : q.1 = name := by simpa using List.find?_some hf
      have hnn : ¬n = name := by
        intro h
        exact hany
          (List.any_eq_true.mpr ⟨q, List.mem_of_find?_eq_some hf, by simp [hq, h]⟩)
      simp [hnn]
    | none =>
      by_cases hnn : n = name <;> simp [hnn]

/-- Folding a registration sequence onto a registry appends, per name, exactly
the registrations of that name in order. -/
theorem triggerList_foldl (regs : List (String × α)) (r : Registry α) (name : String) :
    triggerList (regs.foldl (fun acc q => onEvent acc q.1 q.2) r) name
      = triggerList r name ++ (regs.filter (fun q => q.1 = name)).map (·.2) := by
  induction regs generalizing r with
  | nil => simp
  | cons hd tl ih =>
    rw [List.foldl_cons, ih, triggerList_onEvent]
    by_cases h : hd.1 = name
    · simp [h]
    · simp [h]

/-- C7: after any sequence of `on` registrations, `trigger(name, …)` iterates
exactly the listeners registered for `name`, each exactly once, in
registration order (the dispatched list equals the name-filtered registration
sequence). -/
theorem C7_dispatch_registration_order :
    ∀ (α : Type) (regs : List (String × α)) (name : String),
      triggerList (regs.foldl (fun acc q => onEvent acc q.1 q.2) emptyRegistry) name
        = (regs.filter (fun q => q.1 = name)).map (·.2) := by
  intro α regs name
  rw [triggerList_foldl]
  rfl

/-- A `forEach` over listeners propagates the first thrown error and keeps
every state mutation made up to and including the throwing listener. -/
theorem runListeners_append_error (pre post : List (Listener π σ)) (l : Listener π σ)
    (p : π) (st st1 st2 : σ) (e : JsErr)
    (h1 : runListeners pre p st = (none, st1)) (h2 : l p st1 = (some e, st2)) :
    runListeners (pre ++ l :: post) p st = (some e, st2) := by
  induction pre generalizing st with
  | nil =>
    have hst : st = st1 := by simpa [runListeners] using congrArg Prod.snd h1
    subst hst
    simp [runListeners, h2]
  | cons hd tl ih =>
    rw [List.cons_append]
    unfold runListeners
    unfold runListeners at h1
    cases hhd : hd p st with
    | mk oe st' =>
      rw [hhd] at h1
      cases oe with
      | some e' => simp at h1
      | none => exact ih st' h1

/-- `process` propagates an error thrown while triggering any event and keeps
the builder state reached by the preceding events. -/
theorem processEvents_append_error (r : Registry (Listener π σ))
    (evtsPre evtsPost : List (String × π)) (name : String) (pv : π)
    (st st1 st2 : σ) (e : JsErr)
    (h1 : processEvents r evtsPre st = (none, st1))
    (h2 : trigger r name pv st1 = (some e, st2)) :
    processEvents r (evtsPre ++ (name, pv) :: evtsPost) st = (some e, st2) := by
  induction evtsPre generalizing st with
  | nil =>
    have hst : st = st1 := by simpa [processEvents] using congrArg Prod.snd h1
    subst hst
    simp [processEvents, h2]
  | cons hd tl ih =>
    rw [List.cons_append]
    unfold processEvents
    unfold processEvents at h1
    cases hhd : trigger r hd.1 hd.2 st with
    | mk oe st' =>
      rw [hhd] at h1
      cases oe with
      | some e' => simp at h1
      | none => exact ih st' h1

/-- C6: an exception thrown by a registered listener propagates unmodified out
of `trigger` and out of `process` (no catching or suppression), and the
resulting state is exactly the state at the moment of the throw — instruction
lines already flushed by earlier listeners/events remain (no rollback). -/
theorem C6_listener_error_propagation :
    (∀ (π σ : Type) (r : Registry (Listener π σ)) (name : String)
        (pre post : List (Listener π σ)) (l : Listener π σ)
        (p : π) (st st1 st2 : σ) (e : JsErr),
      triggerList r name = pre ++ l :: post →
      runListeners pre p st = (none, st1) →
      l p st1 = (some e, st2) →
      trigger r name p st = (some e, st2)) ∧
    (∀ (π σ : Type) (r : Registry (Listener π σ))
        (evtsPre evtsPost : List (String × π)) (name : String) (pv : π)
        (st st1 st2 : σ) (e : JsErr),
      processEvents r evtsPre st = (none, st1) →
      trigger r name pv st1 = (some e, st2) →
      processEvents r (evtsPre ++ (name, pv) :: evtsPost) st = (some e, st2)) := by
  constructor
  · intro π σ r name pre post l p st st1 st2 e hlist h1 h2
    unfold trigger
    rw [hlist]
    exact runListeners_append_error pre post l p st st1 st2 e h1 h2
  · intro π σ r evtsPre evtsPost name pv st st1 st2 e h1 h2
    exact processEvents_append_error r evtsPre evtsPost name pv st st1 st2 e h1 h2

/-- C6 (witness): a listener that flushes `G0` followed by a listener that
throws `boom` — the error comes out of `trigger` and the flushed line is still
in the buffer. -/
theorem C6_witness :
    trigger demoRegistry "Evt" () (Builder.new {})
      = (some ⟨"boom"⟩, (Builder.new {}).put "G0" false) ∧
    (((trigger demoRegistry "Evt" () (Builder.new {})).2).currentFile).lines = ["N10 G0"] := by
  have h :=
    C6_listener_error_propagation.1 Unit Builder demoRegistry "Evt"
      [demoPutListener] [] demoThrowListener ()
      (Builder.new {}) ((Builder.new {}).put "G0" false) ((Builder.new {}).put "G0" false)
      ⟨"boom"⟩ rfl rfl rfl
  exact ⟨h, by rw [h]; decide⟩

/-- Past the end of the list, the occurrence list from `i` is empty. -/
theorem occFrom_stop (evts : List String) (name : String) (i : Nat)
    (h : evts.length ≤ i) : occFrom evts name i = [] := by
  unfold occFrom
  rw [Nat.sub_eq_zero_of_le h]
  rfl

/-- One step of the occurrence list from `i`. -/
theorem occFrom_step (evts : List String) (name : String) (i : Nat)
    (h : i < evts.length) :
    occFrom evts name i
      = if evts[i]? = some name then i :: occFrom evts name (i + 1)
        else occFrom evts name (i + 1) := by
  unfold occFrom
  have hlen : evts.length - i = (evts.length - (i + 1)) + 1 := by omega
  rw [hlen, List.range'_succ, List.filter_cons]
  simp only [decide_eq_true_eq]

/-- The forward scan returns the first occurrence at or after its start. -/
theorem searchFwdFrom_eq_head (evts : List String) (name : String) :
    ∀ (d i : Nat), evts.length - i ≤ d →
      searchFwdFrom evts name i = (occFrom evts name i).head? := by
  intro d
  induction d with
  | zero =>
    intro i h
    have hle : evts.length ≤ i := by omega
    unfold searchFwdFrom
    rw [dif_neg (by omega), occFrom_stop evts name i hle]
    rfl
  | succ d ih =>
    intro i h
    by_cases hi : i < evts.length
    · unfold searchFwdFrom
      rw [dif_pos hi, occFrom_step evts name i hi]
      have hsome : evts[i]? = some evts[i] := List.getElem?_eq_getElem hi
      by_cases hm : evts[i] = name
      · have hg : evts[i]? = some name := by rw [hsome, hm]
        rw [if_pos hm, if_pos hg]
        rfl
      · have hg : ¬(evts[i]? = some name) := by
          rw [hsome]
          exact fun hc => hm (Option.some.inj hc)
        rw [if_neg hm, if_neg hg]
        exact ih (i + 1) (by omega)
    · unfold searchFwdFrom
      rw [dif_neg hi, occFrom_stop evts name i (by omega)]
      rfl

/-- The forward countdown scan returns the `n`-th (1-indexed) occurrence at or
after its start. -/
theorem searchFwdNth_eq_get (evts : List String) (name : String) :
    ∀ (d i : Nat) (n : Int), evts.length - i ≤ d → 1 ≤ n →
      searchFwdNth evts name i n = (occFrom evts name i)[(n - 1).toNat]? := by
  intro d
  induction d with
  | zero =>
    intro i n h _
    have hle : evts.length ≤ i := by omega
    unfold searchFwdNth
    rw [dif_neg (by omega), occFrom_stop evts name i hle]
    simp
  | succ d ih =>
    intro i n h hn
    by_cases hi : i < evts.length
    · unfold searchFwdNth
      rw [dif_pos hi, occFrom_step evts name i hi]
      have hsome : evts[i]? = some evts[i] := List.getElem?_eq_getElem hi
      by_cases hm : evts[i] = name
      · have hg : evts[i]? = some name := by rw [hsome, hm]
        rw [if_pos hm, if_pos hg]
        by_cases h1 : n - 1 = 0
        · have ht : (n - 1).toNat = 0 := by omega
          rw [if_pos h1, ht]
          simp
        · have hn2 : (1 : Int) ≤ n - 1 := by omega
          have ht : (n - 1).toNat = ((n - 1 - 1).toNat) + 1 := by omega
          rw [if_neg h1, ih (i + 1) (n - 1) (by omega) hn2, ht]
          simp
      · have hg : ¬(evts[i]? = some name) := by
          rw [hsome]
          exact fun hc => hm (Option.some.inj hc)
        rw [if_neg hm, if_neg hg]
        exact ih (i + 1) n (by omega) hn
    · unfold searchFwdNth
      rw [dif_neg hi, occFrom_stop evts name i (by omega)]
      simp

/-- `occBefore` at zero is empty. -/
theorem occBefore_zero (evts : List String) (name : String) :
    occBefore evts name 0 = [] := rfl

/-- One step of the backward occurrence list. -/
theorem occBefore_succ (evts : List String) (name : String) (i : Nat) :
    occBefore evts name (i + 1)
      = (if evts[i]? = some name then [i] else []) ++ occBefore evts name i := by
  unfold occBefore
  rw [List.range_succ, List.filter_append, List.reverse_append]
  by_cases h : evts[i]? = some name <;> simp [List.filter_cons, h]

/-- The backward scan returns the nearest occurrence at or before its start. -/
theorem searchBackFrom_eq_head (evts : List String) (name : String) :
    ∀ i : Nat, searchBackFrom evts name i = (occBefore evts name (i + 1)).head? := by
  intro i
  induction i with
  | zero =>
    rw [occBefore_succ, occBefore_zero]
    unfold searchBackFrom
    by_cases h : evts[0]? = some name <;> simp [h]
  | succ i ih =>
    rw [occBefore_succ]
    unfold searchBackFrom
    by_cases h : evts[i + 1]? = some name <;> simp [h, ih]

/-- The backward countdown scan returns the `n`-th (1-indexed) occurrence at
or before its start. -/
theorem searchBackNth_eq_get (evts : List String) (name : String) :
    ∀ (i : Nat) (n : Int), 1 ≤ n →
      searchBackNth evts name i n = (occBefore evts name (i + 1))[(n - 1).toNat]? := by
  intro i
  induction i with
  | zero =>
    intro n hn
    rw [occBefore_succ, occBefore_zero]
    unfold searchBackNth
    by_cases h : evts[0]? = some name
    · by_cases h1 : n - 1 = 0
      · have ht : (n - 1).toNat = 0 := by omega
        simp [h, h1, ht]
      · have ht : (n - 1).toNat = ((n - 2).toNat) + 1 := by omega
        simp [h, h1, ht]
    · simp [h]
  | succ i ih =>
    intro n hn
    rw [occBefore_succ]
    unfold searchBackNth
    by_cases h : evts[i + 1]? = some name
    · rw [if_pos h]
      by_cases h1 : n - 1 = 0
      · have ht : (n - 1).toNat = 0 := by omega
        simp [h, h1, ht]
      · have hn2 : (1 : Int) ≤ n - 1 := by omega
        have ht : (n - 1).toNat = ((n - 1 - 1).toNat) + 1 := by omega
        rw [if_neg h1, ih (n - 1) hn2, ht]
        simp [h]
    · rw [if_neg h, ih n hn]
      simp [h]

/-- C4: during `process`, `findLastEvent` returns the nearest strictly earlier
event with the given name (scanning backward from `i − 1`) or none;
`findNearestEvent` the nearest strictly later one (scanning forward from
`i + 1`) or none; and, for `n ≥ 1`, `findNthNextEvent` / `findNthPreviousEvent`
return the `n`-th (1-indexed) entry of the ordered occurrence lists after /
before the current index, or none when fewer than `n` occurrences exist. -/
theorem C4_temporal_lookups :
    ∀ (evts : List String) (i : Nat) (name : String) (n : Int),
      findLastEvent evts i name = (occBefore evts name i).head? ∧
      findNearestEvent evts i name = (occAfter evts name i).head? ∧
      (1 ≤ n → findNthNextEvent evts i name n = (occAfter evts name i)[(n - 1).toNat]?) ∧
      (1 ≤ n → findNthPreviousEvent evts i name n = (occBefore evts name i)[(n - 1).toNat]?) := by
  intro evts i name n
  refine ⟨?_, ?_, fun hn => ?_, fun hn => ?_⟩
  · cases i with
    | zero => rfl
    | succ i => exact searchBackFrom_eq_head evts name i
  · exact searchFwdFrom_eq_head evts name (evts.length - (i + 1)) (i + 1) le_rfl
  · exact searchFwdNth_eq_get evts name (evts.length - (i + 1)) (i + 1) n le_rfl hn
  · cases i with
    | zero => simp [findNthPreviousEvent, occBefore_zero]
    | succ i => exact searchBackNth_eq_get evts name i n hn

/-- C4 (witness): the 1-indexed lookups on the concrete list `[A, B, A]`. -/
theorem C4_witness :
    (1 : Int) ≤ 2 ∧
    findNthNextEvent ["A", "B", "A"] 0 "A" 2
      = (occAfter ["A", "B", "A"] "A" 0)[((2 : Int) - 1).toNat]? ∧
    findNthPreviousEvent ["A", "B", "A"] 2 "A" 1
      = (occBefore ["A", "B", "A"] "A" 2)[((1 : Int) - 1).toNat]? :=
  ⟨by decide,
   (C4_temporal_lookups ["A", "B", "A"] 0 "A" 2).2.2.1 (by decide),
   (C4_temporal_lookups ["A", "B", "A"] 2 "A" 1).2.2.2 (by decide)⟩

/-- C9 (counterexample): the token `1.2.3` is in none of the four categories
of the claim (not quoted, not boolean, not a numeric literal with a unit
suffix, not an enumerated symbol), yet it is not stored as the raw string —
the `parseFloat` guard accepts its numeric head and the JS number conversion
of `1.2.3` stores `NaN`. -/
theorem C9_counterexample :
    specQuotedToken ("1.2.3".toList) = false ∧
    specBoolToken ("1.2.3".toList) = false ∧
    specNumericUnitToken ("1.2.3".toList) = false ∧
    specEnumToken ("1.2.3".toList) = false ∧
    classifyValue ("1.2.3".toList) = .num .nan ∧
    JSValue.num .nan ≠ .str ("1.2.3".toList) ∧
    (parse ("(0)@a\nk: 1.2.3".toList)).map (fun o => objGet o "k")
      = [some (.num .nan)] := by
  decide

/-- C9 (amended): `parse` is a total function; empty input produces the empty
sequence; and every value token that is not quoted, not a boolean literal, and
whose letter-suffix-stripped form does not begin with a numeric prefix (the
`parseFloat` test — tokens that do are stored as the JS number of the stripped
form, `NaN` when it is not entirely numeric) is stored unchanged as a raw
string (known enumerated symbols are likewise stored verbatim). -/
theorem C9_unrecognized_tokens_kept_raw :
    parse ("".toList) = [] ∧
    ∀ v : List Char,
      ¬(v.head? = some quoteChar ∧ v.getLast? = some quoteChar) →
      v ≠ "true".toList → v ≠ "false".toList →
      parseFloatSucceeds (stripLetterSuffix v) = false →
      classifyValue v = .str v := by
  refine ⟨rfl, ?_⟩
  intro v h1 h2 h3 h4
  unfold classifyValue
  rw [if_neg h1, if_neg h2, if_neg h3, if_neg (by simp [h4])]
  repeat first | rfl | split

/-- C9 (witness): the clause applied to the unrecognized token `hello`. -/
theorem C9_witness :
    classifyValue ("hello".toList) = .str ("hello".toList) :=
  C9_unrecognized_tokens_kept_raw.2 ("hello".toList)
    (by decide) (by decide) (by decide) (by decide)

/-- Assigning under a different key leaves a property untouched. -/
theorem objGet_objSet_ne (o : Obj) (k k2 : String) (v : JSValue) (h : k ≠ k2) :
    objGet (objSet o k2 v) k = objGet o k := by
  unfold objSet objGet
  by_cases hany : o.any (fun p => p.1 = k2)
  · simp only [hany, if_true]
    rw [List.find?_map]
    have hpred :
        ((fun p : String × JSValue => decide (p.1 = k)) ∘
            (fun p => if p.1 = k2 then (k2, v) else p))
          = fun p : String × JSValue => decide (p.1 = k) := by
      funext q
      by_cases hq : q.1 = k2 <;> simp [hq]
    rw [hpred]
    cases hf : o.find? (fun p => decide (p.1 = k)) with
    | none => rfl
    | some q =>
      have hqk : q.1 = k := by simpa using List.find?_some hf
      have : ¬q.1 = k2 := by rw [hqk]; exact h
      simp [this]
  · simp only [hany, Bool.false_eq_true, if_false]
    rw [List.find?_append]
    have hne : ¬(k2 = k) := fun hh => h hh.symm
    have : List.find? (fun p => decide (p.1 = k)) [(k2, v)] = none := by
      simp [List.find?, hne]
    rw [this]
    cases o.find? (fun p => decide (p.1 = k)) <;> rfl

/-- Applying pairs whose keys all differ from `k` leaves property `k`
untouched. -/
theorem objGet_applyPairs_ne (ps : List (List Char)) (o : Obj) (k : String)
    (h : ∀ m ∈ ps, pairKey m ≠ k) :
    objGet (applyPairs o ps) k = objGet o k := by
  induction ps generalizing o with
  | nil => rfl
  | cons m ms ih =>
    unfold applyPairs at ih ⊢
    rw [List.foldl_cons]
    rw [ih (applyPair o m) (fun q hq => h q (List.mem_cons_of_mem m hq))]
    exact objGet_objSet_ne o k (pairKey m) (pairValue m)
      (fun hk => h m (List.mem_cons_self m ms) hk.symm)

/-- One parse-loop step preserves the `_index` invariant when the matched
pairs of the line avoid the key `_index`. -/
theorem processLine_indexInv (st : ParseState) (line : List Char)
    (hinv : IndexInv st) (hline : ∀ m ∈ findMatches line, pairKey m ≠ "_index") :
    IndexInv (processLine st line) := by
  have happly : ∀ o : Obj,
      objGet (applyPairs o (findMatches line)) "_index" = objGet o "_index" :=
    fun o => objGet_applyPairs_ne (findMatches line) o "_index" hline
  obtain ⟨out, cur, counter⟩ := st
  unfold IndexInv recordsOf at hinv ⊢
  dsimp only at hinv
  unfold processLine
  cases hsec : sectionMatch line with
  | none =>
    simp only
    cases cur with
    | none => exact hinv
    | some o =>
      simp only [Option.toList_some] at hinv ⊢
      simp only [List.map_append, List.map_cons, List.map_nil] at hinv ⊢
      rw [happly o]
      exact hinv
  | some sec =>
    simp only
    have hnew :
        objGet
          (applyPairs
            [("_eventName", JSValue.str (toPascalCase sec.2)),
             ("_index", JSValue.num (natToJSNum counter))] (findMatches line)) "_index"
          = some (JSValue.num (natToJSNum counter)) := by
      rw [happly]
      rfl
    rw [List.range_succ]
    simp only [Option.toList_some, List.map_append, List.map_cons, List.map_nil, hnew]
    rw [List.map_append] at hinv
    rw [hinv]

/-- The `_index` invariant holds after folding any lines whose matched pairs
avoid the key `_index`. -/
theorem foldl_indexInv (ls : List (List Char)) (st : ParseState)
    (hinv : IndexInv st)
    (h : ∀ line ∈ ls, ∀ m ∈ findMatches line, pairKey m ≠ "_index") :
    IndexInv (ls.foldl processLine st) := by
  induction ls generalizing st with
  | nil => exact hinv
  | cons hd tl ih =>
    rw [List.foldl_cons]
    exact ih (processLine st hd)
      (processLine_indexInv st hd hinv (h hd (List.mem_cons_self hd tl)))
      (fun line hl => h line (List.mem_cons_of_mem hd hl))

/-- Each parse-loop step adds one to the counter exactly on marker lines. -/
theorem processLine_counter (st : ParseState) (line : List Char) :
    (processLine st line).counter
      = st.counter + (if (sectionMatch line).isSome then 1 else 0) := by
  obtain ⟨out, cur, counter⟩ := st
  unfold processLine
  cases hsec : sectionMatch line with
  | none =>
    simp only
    cases cur <;> simp
  | some sec =>
    simp only
    simp

/-- Each parse-loop step adds one record exactly on marker lines. -/
theorem processLine_length (st : ParseState) (line : List Char) :
    (recordsOf (processLine st line)).length
      = (recordsOf st).length + (if (sectionMatch line).isSome then 1 else 0) := by
  obtain ⟨out, cur, counter⟩ := st
  unfold processLine recordsOf
  cases hsec : sectionMatch line with
  | none =>
    simp only
    cases cur <;> simp
  | some sec =>
    simp only
    cases cur <;> simp

/-- Folding lines: the counter grows by the number of marker lines. -/
theorem foldl_counter (ls : List (List Char)) (st : ParseState) :
    (ls.foldl processLine st).counter
      = st.counter + ls.countP (fun l => (sectionMatch l).isSome) := by
  induction ls generalizing st with
  | nil => simp
  | cons hd tl ih =>
    rw [List.foldl_cons, ih, processLine_counter, List.countP_cons]
    by_cases h : (sectionMatch hd).isSome <;> simp [h] <;> omega

/-- Folding lines: the record count grows by the number of marker lines. -/
theorem foldl_length (ls : List (List Char)) (st : ParseState) :
    (recordsOf (ls.foldl processLine st)).length
      = (recordsOf st).length + ls.countP (fun l => (sectionMatch l).isSome) := by
  induction ls generalizing st with
  | nil => simp
  | cons hd tl ih =>
    rw [List.foldl_cons, ih, processLine_length, List.countP_cons]
    by_cases h : (sectionMatch hd).isSome <;> simp [h] <;> omega

/-- C2 (counterexample): the input `(0)@a` followed by the parameter line
`_index: 99` has one event marker, so the claim demands `_index = 0`; the
key/value assignment of the parser overwrites the parser-assigned index with
the number 99. -/
theorem C2_counterexample :
    (parse ("(0)@a\n_index: 99".toList)).length = 1 ∧
    (parse ("(0)@a\n_index: 99".toList)).map (fun o => objGet o "_index")
      = [some (.num (.val 99 0))] ∧
    (JSNum.val 99 0) ≠ natToJSNum 0 := by
  decide

/-- C2 (amended): `parse` always returns exactly one record per event-marker
line; and provided no matched `key: value` pair in the input carries the key
`_index`, the `_index` fields of the records are the numbers `0, 1, …, N − 1`
in order of appearance, regardless of the integers written inside the
brackets of the markers. -/
theorem C2_indices_dense_in_order :
    ∀ input : List Char,
      (parse input).length = markerCount input ∧
      ((∀ line ∈ splitOnChar '\n' input, ∀ m ∈ findMatches line, pairKey m ≠ "_index") →
        (parse input).map (fun o => objGet o "_index")
          = (List.range (markerCount input)).map (fun j => some (.num (natToJSNum j)))) := by
  intro input
  have hlen :
      (parse input).length
        = (splitOnChar '\n' input).countP (fun l => (sectionMatch l).isSome) := by
    have := foldl_length (splitOnChar '\n' input) ⟨[], none, 0⟩
    simpa [parse, recordsOf] using this
  have hcount :
      markerCount input
        = (splitOnChar '\n' input).countP (fun l => (sectionMatch l).isSome) := by
    unfold markerCount
    rw [List.countP_eq_length_filter]
  constructor
  · rw [hlen, hcount]
  · intro h
    have hinv := foldl_indexInv (splitOnChar '\n' input) ⟨[], none, 0⟩ rfl h
    have hcounter := foldl_counter (splitOnChar '\n' input) ⟨[], none, 0⟩
    unfold IndexInv recordsOf at hinv
    rw [hcounter] at hinv
    simp only [Nat.zero_add] at hinv
    rw [hcount]
    simpa [parse] using hinv

/-- C2 (witness): the amended statement on the two-marker input
`(3)@foo k: 5 ⏎ (9)@bar`. -/
theorem C2_witness :
    (parse ("(3)@foo k: 5\n(9)@bar".toList)).length
        = markerCount ("(3)@foo k: 5\n(9)@bar".toList) ∧
    (parse ("(3)@foo k: 5\n(9)@bar".toList)).map (fun o => objGet o "_index")
      = (List.range (markerCount ("(3)@foo k: 5\n(9)@bar".toList))).map
          (fun j => some (.num (natToJSNum j))) :=
  ⟨(C2_indices_dense_in_order ("(3)@foo k: 5\n(9)@bar".toList)).1,
   (C2_indices_dense_in_order ("(3)@foo k: 5\n(9)@bar".toList)).2 (by decide)⟩

end Achar
